import Mathlib

/-!
Shallow embedding of `dot.cpp`, a single-file benchmark for naive dense
matrix multiplication.  Single-precision float values are modelled by exact
rationals (`ℚ`): every finite IEEE single-precision value is a rational, and
the claims under study are either structural (loop order, addressing,
framing, bounds) or concern inputs on which single-precision arithmetic is
exact.  Uninitialized memory is modelled by the `Inhabited` default value.
The process-wide generator behind `rand()` is modelled by a stream
`g : Nat → Nat` of its successive outputs together with the `RAND_MAX`
bound; ISO C guarantees `0 ≤ rand() ≤ RAND_MAX`, both ends included.
-/

namespace DotBench

/-- Embedding of `class Matrix`: `n` rows, `m` columns, and the owned
buffer `data` (C++ `float *data` of size `n*m`, here a list of scalars). -/
structure Matrix (α : Type) where
  n : Nat
  m : Nat
  data : List α

namespace Matrix

/-- Linear offset of element `(i, j)`: the C++ accessor expression `x*m+y`. -/
def idx (a : Matrix α) (i j : Nat) : Nat := i * a.m + j

/-- Read access `a(i, j)` (C++ `float operator() (size_t x, size_t y) const
\x7b return data[x*m+y]; \x7d`).  An out-of-range read is undefined behavior in
the source; the model returns the junk value `default`. -/
def get [Inhabited α] (a : Matrix α) (i j : Nat) : α :=
  a.data.getD (a.idx i j) default

/-- Write access `a(i, j) = v` (C++ `float& operator() (size_t x, size_t y)`
used as assignment target).  An out-of-range write is undefined behavior in
the source; the model makes it a no-op (`List.set` out of range). -/
def set (a : Matrix α) (i j : Nat) (v : α) : Matrix α :=
  ⟨a.n, a.m, a.data.set (a.idx i j) v⟩

/-- Checked read access: `none` exactly when the linear offset falls outside
the buffer (the undefined-behavior branch of the total model `get`). -/
def getChk (a : Matrix α) (i j : Nat) : Option α :=
  a.data[a.idx i j]?

/-- Checked write access: `none` exactly when the linear offset falls outside
the buffer. -/
def setChk (a : Matrix α) (i j : Nat) (v : α) : Option (Matrix α) :=
  if a.idx i j < a.data.length then some (a.set i j v) else none

/-- The container invariant: the buffer holds exactly `rows * cols` cells
(C++ `data(new float[r*c])`). -/
def Wf (a : Matrix α) : Prop := a.data.length = a.n * a.m

/-- Embedding of the constructor `Matrix(size_t r, size_t c)`: allocates a
buffer of `r*c` scalars, uninitialized (modeled by the junk value
`default`). -/
def alloc (α : Type) [Inhabited α] (r c : Nat) : Matrix α :=
  ⟨r, c, List.replicate (r * c) default⟩

end Matrix

/-- Inner accumulation loop of `dot`: `float s = 0; for (k = 0; k < a.m; ++k)
s += a(i, k) * b(k, j);` — a left fold over `k` ascending, starting at `0`. -/
def dotAcc [Inhabited α] [Zero α] [Add α] [Mul α] (a b : Matrix α) (i j : Nat) : α :=
  (List.range a.m).foldl (fun s k => s + a.get i k * b.get k j) 0

/-- The full result matrix built by `dot`: `Matrix c(a.n, b.m);` then the two
outer loops store each accumulated scalar into `c(i, j)`. -/
def dotMatrix [Inhabited α] [Zero α] [Add α] [Mul α] (a b : Matrix α) : Matrix α :=
  (List.range a.n).foldl
    (fun c i => (List.range b.m).foldl (fun c j => c.set i j (dotAcc a b i j)) c)
    (Matrix.alloc α a.n b.m)

/-- Embedding of `float dot(const Matrix &a, const Matrix& b)`: computes the
full product matrix and returns `c(0, 0)`. -/
def dot [Inhabited α] [Zero α] [Add α] [Mul α] (a b : Matrix α) : α :=
  (dotMatrix a b).get 0 0

/-- Entry of the product as described by the spec (refinement target for the
kernel claim): for output cell (i, j), accumulate over k in 0..p ascending,
into a scalar accumulator starting from 0, the product A(i,k)*B(k,j). -/
def specMulEntry [Inhabited α] [Zero α] [Add α] [Mul α]
    (a b : Matrix α) (i j : Nat) : α :=
  (List.range a.m).foldl (fun s k => s + a.get i k * b.get k j) 0

/-- Test matrix A = [[1,2],[3,4]] from the spec's multiply-correctness item. -/
def exA : Matrix ℚ := ⟨2, 2, [1, 2, 3, 4]⟩

/-- Test matrix B = [[5,6],[7,8]] from the spec's multiply-correctness item. -/
def exB : Matrix ℚ := ⟨2, 2, [5, 6, 7, 8]⟩

/-- View of one pass of the inner store loop: write `v j` into `(i, j)` for
`j = 0 .. M-1`. -/
def writeRow (i : Nat) (v : Nat → α) (M : Nat) (c : Matrix α) : Matrix α :=
  (List.range M).foldl (fun c j => c.set i j (v j)) c

/-- View of the nested store loops: write `v i j` into `(i, j)` for each
`i < N`, `j < M`. -/
def writeAll (N M : Nat) (v : Nat → Nat → α) (c : Matrix α) : Matrix α :=
  (List.range N).foldl (fun c i => writeRow i (v i) M c) c

/-- The scalar stored by one step of `fill_rand`:
`rand() / static_cast<float>(RAND_MAX) * 2 - 1`, where the `t`-th call of
`rand()` yields `g t` and `RAND_MAX` is `rm`. -/
def randVal (rm : Nat) (g : Nat → Nat) (t : Nat) : ℚ :=
  (g t : ℚ) / (rm : ℚ) * 2 - 1

/-- Embedding of `void fill_rand(Matrix &a)` threading the count of `rand()`
calls already made: row-major double loop, one generator output consumed per
element. -/
def fill_randAux (rm : Nat) (g : Nat → Nat) (a : Matrix ℚ) (t0 : Nat) :
    Matrix ℚ × Nat :=
  (List.range a.n).foldl
    (fun p i => (List.range a.m).foldl
      (fun p j => (p.1.set i j (randVal rm g p.2), p.2 + 1)) p)
    (a, t0)

/-- Embedding of `void fill_rand(Matrix &a)` starting from a fresh generator
position. -/
def fill_rand (rm : Nat) (g : Nat → Nat) (a : Matrix ℚ) : Matrix ℚ :=
  (fill_randAux rm g a 0).1

/-- A `p × p` identity matrix with exact 0/1 entries (test vehicle of the
spec's identity property). -/
def identityQ (d : Nat) : Matrix ℚ :=
  ⟨d, d, (List.range (d * d)).map (fun t => if t % d = t / d then (1 : ℚ) else 0)⟩

namespace Driver

/-- Constant `n` of `main`: `const int n = 100`. -/
def n : Nat := 100

/-- Constant `p` of `main`: `const int p = 200`. -/
def p : Nat := 200

/-- Constant `m` of `main`: `const int m = 50`. -/
def m : Nat := 50

/-- Constant `T` of `main`: `const int T = 100`. -/
def T : Nat := 100

/-- Matrix `a` of `main` after `fill_rand(a)`, with the generator position
reached (the fill starts at position 0, right after seeding). -/
def aFilled (rm : Nat) (g : Nat → Nat) : Matrix ℚ × Nat :=
  fill_randAux rm g (Matrix.alloc ℚ n p) 0

/-- Matrix `b` of `main` after `fill_rand(b)`, consuming the generator from
the position where the first fill stopped. -/
def bFilled (rm : Nat) (g : Nat → Nat) : Matrix ℚ × Nat :=
  fill_randAux rm g (Matrix.alloc ℚ p m) (aFilled rm g).2

/-- The accumulator `s` of `main`: `float s = 0; for (i = 0; i < T; ++i)
s += dot(a, b);`. -/
def sAccum (rm : Nat) (g : Nat → Nat) : ℚ :=
  (List.range T).foldl (fun s _ => s + dot (aFilled rm g).1 (bFilled rm g).1) 0

/-- One emitted output line: either the diagnostic scalar on `std::cerr` or
the result line `"<loops> loops. average <avg>us"` on `std::cout`.  The
numeric payloads are kept as data; decimal rendering is not modelled. -/
inductive OutLine where
  | err : ℚ → OutLine
  | avg : Nat → ℚ → OutLine

/-- The two lines written by `main`: `std::cerr << s << std::endl;` then
`std::cout << T << " loops. average " << diff.count() * 1e6 / T << "us"`.
`elapsedSec` stands for the wall-clock duration `diff.count()` in seconds. -/
def output (rm : Nat) (g : Nat → Nat) (elapsedSec : ℚ) : List OutLine :=
  [OutLine.err (sAccum rm g),
   OutLine.avg T (elapsedSec * 1000000 / (T : ℚ))]

end Driver

/-- Checked variant of the inner accumulation loop: every element read goes
through the bounds-reporting accessor. -/
def dotAccChk (a b : Matrix ℚ) (i j : Nat) : Option ℚ :=
  (List.range a.m).foldl
    (fun s? k => s?.bind (fun s => (a.getChk i k).bind
      (fun x => (b.getChk k j).bind (fun y => some (s + x * y)))))
    (some 0)

/-- Checked variant of the result-matrix construction: every store goes
through the bounds-reporting writer. -/
def dotMatrixChk (a b : Matrix ℚ) : Option (Matrix ℚ) :=
  (List.range a.n).foldl
    (fun c? i => (List.range b.m).foldl
      (fun c? j => c?.bind (fun c => (dotAccChk a b i j).bind
        (fun v => c.setChk i j v))) c?)
    (some (Matrix.alloc ℚ a.n b.m))

/-- Checked variant of the whole kernel, including the final read `c(0, 0)`:
`none` as soon as any single access is out of bounds. -/
def dotChk (a b : Matrix ℚ) : Option ℚ :=
  (dotMatrixChk a b).bind (fun c => c.getChk 0 0)

/-- Flat memory for the frame-property model: scalar cells addressed by
naturals. -/
def Mem : Type := Nat → ℚ

/-- A matrix viewed as a region of flat memory: base address plus the same
row-major layout as the container. -/
structure MatRef where
  base : Nat
  n : Nat
  m : Nat

/-- Address of element `(i, j)` of a memory-resident matrix. -/
def MatRef.addr (r : MatRef) (i j : Nat) : Nat := r.base + (i * r.m + j)

/-- Membership of an address in the footprint of a memory-resident matrix. -/
def MatRef.region (r : MatRef) (q : Nat) : Prop :=
  r.base ≤ q ∧ q < r.base + r.n * r.m

/-- Read of element `(i, j)` of a memory-resident matrix. -/
def readM (mem : Mem) (r : MatRef) (i j : Nat) : ℚ := mem (r.addr i j)

/-- Store of a scalar at one memory cell. -/
def writeM (mem : Mem) (q : Nat) (v : ℚ) : Mem :=
  fun x => if x = q then v else mem x

/-- Memory-level embedding of `dot`: the result matrix `c` lives at `cbase`
(the fresh allocation), the loops read `a(i,k)` and `b(k,j)` from the current
memory and store each accumulated scalar at `c(i,j)`; the returned scalar is
the final read of `c(0,0)`. -/
def dotMem (mem : Mem) (a b : MatRef) (cbase : Nat) : Mem × ℚ :=
  let c : MatRef := ⟨cbase, a.n, b.m⟩
  let mem2 := (List.range a.n).foldl
    (fun mem i => (List.range b.m).foldl
      (fun mem j => writeM mem (c.addr i j)
        ((List.range a.m).foldl
          (fun s k => s + readM mem a i k * readM mem b k j) 0)) mem) mem
  (mem2, readM mem2 c 0 0)

namespace Matrix

theorem set_n (a : Matrix α) (i j : Nat) (v : α) : (a.set i j v).n = a.n := rfl

theorem set_m (a : Matrix α) (i j : Nat) (v : α) : (a.set i j v).m = a.m := rfl

theorem set_length (a : Matrix α) (i j : Nat) (v : α) :
    (a.set i j v).data.length = a.data.length := List.length_set ..

theorem set_Wf {a : Matrix α} (h : a.Wf) (i j : Nat) (v : α) : (a.set i j v).Wf := by
  simpa [Wf, set_n, set_m, set_length] using h

theorem alloc_n (α : Type) [Inhabited α] (r c : Nat) : (alloc α r c).n = r := rfl

theorem alloc_m (α : Type) [Inhabited α] (r c : Nat) : (alloc α r c).m = c := rfl

theorem alloc_Wf (α : Type) [Inhabited α] (r c : Nat) : (alloc α r c).Wf := by
  simp [Wf, alloc]

/-- Row-major in-range offsets stay below the buffer size. -/
theorem idx_lt {i n j m : Nat} (hi : i < n) (hj : j < m) : i * m + j < n * m :=
  calc i * m + j < i * m + m := Nat.add_lt_add_left hj _
    _ = (i + 1) * m := by ring
    _ ≤ n * m := Nat.mul_le_mul_right m hi

/-- Row-major addressing is injective on in-range column indices. -/
theorem idx_inj {i i' j j' m : Nat} (hj : j < m) (hj' : j' < m)
    (h : i * m + j = i' * m + j') : i = i' ∧ j = j' := by
  have hjj : j = j' := by
    have h1 : (j + i * m) % m = (j' + i' * m) % m := by
      rw [Nat.add_comm j, Nat.add_comm j']; exact congrArg (· % m) h
    simpa [Nat.add_mul_mod_self_right, Nat.mod_eq_of_lt hj,
      Nat.mod_eq_of_lt hj'] using h1
  subst hjj
  have hm : 0 < m := Nat.lt_of_le_of_lt (Nat.zero_le _) hj
  have hii : i = i' := by
    have h2 : i * m = i' * m := by omega
    exact Nat.eq_of_mul_eq_mul_right hm h2
  exact ⟨hii, rfl⟩

theorem get_set_self [Inhabited α] {a : Matrix α} (h : a.Wf)
    {i j : Nat} (hi : i < a.n) (hj : j < a.m) (v : α) :
    (a.set i j v).get i j = v := by
  have hlt : i * a.m + j < a.data.length := by
    rw [h]; exact idx_lt hi hj
  show (a.data.set (i * a.m + j) v).getD (i * a.m + j) default = v
  rw [List.getD_eq_getElem?_getD, List.getElem?_set_eq_of_lt v hlt]
  rfl

theorem get_set_ne [Inhabited α] {a : Matrix α}
    {i j i' j' : Nat} (hj : j < a.m) (hj' : j' < a.m)
    (hne : (i', j') ≠ (i, j)) (v : α) :
    (a.set i j v).get i' j' = a.get i' j' := by
  have hidx : i * a.m + j ≠ i' * a.m + j' := by
    intro he
    rcases idx_inj hj hj' he with ⟨h1, h2⟩
    exact hne (by simp [h1, h2])
  show (a.data.set (i * a.m + j) v).getD (i' * a.m + j') default =
    a.data.getD (i' * a.m + j') default
  rw [List.getD_eq_getElem?_getD, List.getD_eq_getElem?_getD,
    List.getElem?_set_ne hidx]

theorem getChk_eq_some [Inhabited α] {a : Matrix α} (h : a.Wf)
    {i j : Nat} (hi : i < a.n) (hj : j < a.m) :
    a.getChk i j = some (a.get i j) := by
  have hlt : a.idx i j < a.data.length := by
    rw [h]; exact idx_lt hi hj
  simp [getChk, get, List.getD_eq_getElem?_getD, List.getElem?_eq_getElem hlt]

theorem setChk_eq_some {a : Matrix α} (h : a.Wf)
    {i j : Nat} (hi : i < a.n) (hj : j < a.m) (v : α) :
    a.setChk i j v = some (a.set i j v) := by
  have hlt : a.idx i j < a.data.length := by
    rw [h]; exact idx_lt hi hj
  simp [setChk, hlt]

end Matrix

theorem writeRow_succ (i : Nat) (v : Nat → α) (M : Nat) (c : Matrix α) :
    writeRow i v (M + 1) c = (writeRow i v M c).set i M (v M) := by
  unfold writeRow
  rw [List.range_succ, List.foldl_append]
  rfl

theorem writeAll_succ (N M : Nat) (v : Nat → Nat → α) (c : Matrix α) :
    writeAll (N + 1) M v c = writeRow N (v N) M (writeAll N M v c) := by
  unfold writeAll
  rw [List.range_succ, List.foldl_append]
  rfl

theorem writeRow_n (i : Nat) (v : Nat → α) (M : Nat) (c : Matrix α) :
    (writeRow i v M c).n = c.n := by
  induction M with
  | zero => rfl
  | succ M ih => rw [writeRow_succ, Matrix.set_n, ih]

theorem writeRow_m (i : Nat) (v : Nat → α) (M : Nat) (c : Matrix α) :
    (writeRow i v M c).m = c.m := by
  induction M with
  | zero => rfl
  | succ M ih => rw [writeRow_succ, Matrix.set_m, ih]

theorem writeRow_length (i : Nat) (v : Nat → α) (M : Nat) (c : Matrix α) :
    (writeRow i v M c).data.length = c.data.length := by
  induction M with
  | zero => rfl
  | succ M ih => rw [writeRow_succ, Matrix.set_length, ih]

theorem writeRow_Wf {c : Matrix α} (h : c.Wf) (i : Nat) (v : Nat → α) (M : Nat) :
    (writeRow i v M c).Wf := by
  simp only [Matrix.Wf, writeRow_n, writeRow_m, writeRow_length]
  exact h

theorem writeAll_n (N M : Nat) (v : Nat → Nat → α) (c : Matrix α) :
    (writeAll N M v c).n = c.n := by
  induction N with
  | zero => rfl
  | succ N ih => rw [writeAll_succ, writeRow_n, ih]

theorem writeAll_m (N M : Nat) (v : Nat → Nat → α) (c : Matrix α) :
    (writeAll N M v c).m = c.m := by
  induction N with
  | zero => rfl
  | succ N ih => rw [writeAll_succ, writeRow_m, ih]

theorem writeAll_length (N M : Nat) (v : Nat → Nat → α) (c : Matrix α) :
    (writeAll N M v c).data.length = c.data.length := by
  induction N with
  | zero => rfl
  | succ N ih => rw [writeAll_succ, writeRow_length, ih]

theorem writeAll_Wf {c : Matrix α} (h : c.Wf) (N M : Nat) (v : Nat → Nat → α) :
    (writeAll N M v c).Wf := by
  simp only [Matrix.Wf, writeAll_n, writeAll_m, writeAll_length]
  exact h

theorem writeRow_get_lt [Inhabited α] {c : Matrix α} (h : c.Wf) {i j M : Nat}
    (v : Nat → α) (hi : i < c.n) (hM : M ≤ c.m) (hj : j < M) :
    (writeRow i v M c).get i j = v j := by
  induction M with
  | zero => exact absurd hj (Nat.not_lt_zero j)
  | succ M ih =>
    rw [writeRow_succ]
    rcases Nat.lt_succ_iff_lt_or_eq.mp hj with hlt | heq
    · have hMm : M < c.m := Nat.lt_of_lt_of_le (Nat.lt_succ_self M) hM
      have hjm : j < c.m := Nat.lt_of_lt_of_le hj hM
      have hne : (i, j) ≠ (i, M) := by
        intro he
        exact Nat.ne_of_lt hlt (by simpa using congrArg Prod.snd he)
      rw [show ((writeRow i v M c).set i M (v M)).get i j =
          (writeRow i v M c).get i j from
        Matrix.get_set_ne (by rw [writeRow_m]; exact hMm)
          (by rw [writeRow_m]; exact hjm) hne (v M)]
      exact ih (Nat.le_of_succ_le hM) hlt
    · subst heq
      exact Matrix.get_set_self (writeRow_Wf h i v j)
        (by rw [writeRow_n]; exact hi)
        (by rw [writeRow_m]; exact Nat.lt_of_succ_le hM) (v j)

theorem writeRow_get_ne [Inhabited α] {c : Matrix α} {i i' j' M : Nat}
    (v : Nat → α) (hne : i' ≠ i) (hM : M ≤ c.m) (hj' : j' < c.m) :
    (writeRow i v M c).get i' j' = c.get i' j' := by
  induction M with
  | zero => rfl
  | succ M ih =>
    rw [writeRow_succ]
    have hMm : M < c.m := Nat.lt_of_lt_of_le (Nat.lt_succ_self M) hM
    have hpne : (i', j') ≠ (i, M) := by
      intro he
      exact hne (by simpa using congrArg Prod.fst he)
    rw [show ((writeRow i v M c).set i M (v M)).get i' j' =
        (writeRow i v M c).get i' j' from
      Matrix.get_set_ne (by rw [writeRow_m]; exact hMm)
        (by rw [writeRow_m]; exact hj') hpne (v M)]
    exact ih (Nat.le_of_succ_le hM)

theorem writeAll_get [Inhabited α] {c : Matrix α} (h : c.Wf) {N M i j : Nat}
    (v : Nat → Nat → α) (hN : N ≤ c.n) (hM : M ≤ c.m) (hi : i < N) (hj : j < M) :
    (writeAll N M v c).get i j = v i j := by
  induction N with
  | zero => exact absurd hi (Nat.not_lt_zero i)
  | succ N ih =>
    rw [writeAll_succ]
    rcases Nat.lt_succ_iff_lt_or_eq.mp hi with hlt | heq
    · rw [show (writeRow N (v N) M (writeAll N M v c)).get i j =
          (writeAll N M v c).get i j from
        writeRow_get_ne (v N) (Nat.ne_of_lt hlt)
          (by rw [writeAll_m]; exact hM)
          (by rw [writeAll_m]; exact Nat.lt_of_lt_of_le hj hM)]
      exact ih (Nat.le_of_succ_le hN) hlt
    · subst heq
      exact writeRow_get_lt (writeAll_Wf h i M v) (v i)
        (by rw [writeAll_n]; exact Nat.lt_of_succ_le hN)
        (by rw [writeAll_m]; exact hM) hj

theorem dotMatrix_eq_writeAll [Inhabited α] [Zero α] [Add α] [Mul α]
    (a b : Matrix α) :
    dotMatrix a b = writeAll a.n b.m (fun i j => dotAcc a b i j)
      (Matrix.alloc α a.n b.m) := rfl

theorem dotMatrix_n [Inhabited α] [Zero α] [Add α] [Mul α] (a b : Matrix α) :
    (dotMatrix a b).n = a.n := by
  rw [dotMatrix_eq_writeAll, writeAll_n, Matrix.alloc_n]

theorem dotMatrix_m [Inhabited α] [Zero α] [Add α] [Mul α] (a b : Matrix α) :
    (dotMatrix a b).m = b.m := by
  rw [dotMatrix_eq_writeAll, writeAll_m, Matrix.alloc_m]

theorem dotMatrix_Wf [Inhabited α] [Zero α] [Add α] [Mul α] (a b : Matrix α) :
    (dotMatrix a b).Wf := by
  rw [dotMatrix_eq_writeAll]
  exact writeAll_Wf (Matrix.alloc_Wf α a.n b.m) _ _ _

theorem dotMatrix_get [Inhabited α] [Zero α] [Add α] [Mul α]
    {a b : Matrix α} {i j : Nat} (hi : i < a.n) (hj : j < b.m) :
    (dotMatrix a b).get i j = dotAcc a b i j := by
  rw [dotMatrix_eq_writeAll]
  exact writeAll_get (Matrix.alloc_Wf α a.n b.m) _
    (by rw [Matrix.alloc_n]) (by rw [Matrix.alloc_m]) hi hj

theorem fillRow_eq (rm : Nat) (g : Nat → Nat) (i M : Nat) (c : Matrix ℚ) (t : Nat) :
    (List.range M).foldl
      (fun p j => (p.1.set i j (randVal rm g p.2), p.2 + 1)) (c, t) =
      (writeRow i (fun j => randVal rm g (t + j)) M c, t + M) := by
  induction M with
  | zero => simp [writeRow]
  | succ M ih =>
    rw [List.range_succ, List.foldl_append, ih]
    simp only [List.foldl_cons, List.foldl_nil]
    rw [writeRow_succ]
    rfl

theorem fillOuter_eq (rm : Nat) (g : Nat → Nat) (M N : Nat) (c : Matrix ℚ) (t : Nat) :
    (List.range N).foldl
      (fun p i => (List.range M).foldl
        (fun p j => (p.1.set i j (randVal rm g p.2), p.2 + 1)) p) (c, t) =
      (writeAll N M (fun i j => randVal rm g (t + (i * M + j))) c, t + N * M) := by
  induction N with
  | zero => simp [writeAll]
  | succ N ih =>
    rw [List.range_succ, List.foldl_append, ih]
    simp only [List.foldl_cons, List.foldl_nil]
    rw [fillRow_eq, writeAll_succ]
    have hv : (fun j => randVal rm g (t + N * M + j)) =
        fun j => randVal rm g (t + (N * M + j)) := by
      funext j
      rw [Nat.add_assoc]
    simp only [Prod.mk.injEq]
    constructor
    · rw [hv]
    · ring

theorem fill_randAux_eq (rm : Nat) (g : Nat → Nat) (a : Matrix ℚ) (t0 : Nat) :
    fill_randAux rm g a t0 =
      (writeAll a.n a.m (fun i j => randVal rm g (t0 + (i * a.m + j))) a,
       t0 + a.n * a.m) :=
  fillOuter_eq rm g a.m a.n a t0

theorem fill_rand_eq (rm : Nat) (g : Nat → Nat) (a : Matrix ℚ) :
    fill_rand rm g a =
      writeAll a.n a.m (fun i j => randVal rm g (i * a.m + j)) a := by
  unfold fill_rand
  rw [fill_randAux_eq]
  have hv : (fun i j => randVal rm g (0 + (i * a.m + j))) =
      fun i j => randVal rm g (i * a.m + j) := by
    funext i j
    rw [Nat.zero_add]
  rw [hv]

theorem fill_randAux_fst_n (rm : Nat) (g : Nat → Nat) (a : Matrix ℚ) (t0 : Nat) :
    (fill_randAux rm g a t0).1.n = a.n := by
  rw [fill_randAux_eq]
  exact writeAll_n _ _ _ _

theorem fill_randAux_fst_m (rm : Nat) (g : Nat → Nat) (a : Matrix ℚ) (t0 : Nat) :
    (fill_randAux rm g a t0).1.m = a.m := by
  rw [fill_randAux_eq]
  exact writeAll_m _ _ _ _

theorem fill_randAux_fst_Wf (rm : Nat) (g : Nat → Nat) {a : Matrix ℚ}
    (ha : a.Wf) (t0 : Nat) : (fill_randAux rm g a t0).1.Wf := by
  rw [fill_randAux_eq]
  exact writeAll_Wf ha _ _ _

theorem fill_rand_n (rm : Nat) (g : Nat → Nat) (a : Matrix ℚ) :
    (fill_rand rm g a).n = a.n := by
  rw [fill_rand_eq, writeAll_n]

theorem fill_rand_m (rm : Nat) (g : Nat → Nat) (a : Matrix ℚ) :
    (fill_rand rm g a).m = a.m := by
  rw [fill_rand_eq, writeAll_m]

theorem fill_rand_length (rm : Nat) (g : Nat → Nat) (a : Matrix ℚ) :
    (fill_rand rm g a).data.length = a.data.length := by
  rw [fill_rand_eq, writeAll_length]

theorem fill_rand_get (rm : Nat) (g : Nat → Nat) {a : Matrix ℚ} (ha : a.Wf)
    {i j : Nat} (hi : i < a.n) (hj : j < a.m) :
    (fill_rand rm g a).get i j = randVal rm g (i * a.m + j) := by
  rw [fill_rand_eq]
  exact writeAll_get ha _ le_rfl le_rfl hi hj

theorem randVal_bounds (rm : Nat) (g : Nat → Nat) (t : Nat)
    (hg : g t ≤ rm) (hrm : 0 < rm) :
    -1 ≤ randVal rm g t ∧ randVal rm g t ≤ 1 := by
  unfold randVal
  have hrm' : (0 : ℚ) < (rm : ℚ) := by exact_mod_cast hrm
  have h0 : (0 : ℚ) ≤ (g t : ℚ) / (rm : ℚ) := by positivity
  have h1 : (g t : ℚ) / (rm : ℚ) ≤ 1 := by
    rw [div_le_one hrm']
    exact_mod_cast hg
  constructor <;> linarith

theorem foldl_add_eq_sum (f : Nat → ℚ) (N : Nat) :
    (List.range N).foldl (fun s k => s + f k) 0 = ∑ k ∈ Finset.range N, f k := by
  induction N with
  | zero => simp
  | succ N ih =>
    rw [List.range_succ, List.foldl_append]
    simp only [List.foldl_cons, List.foldl_nil]
    rw [ih, Finset.sum_range_succ]

theorem identityQ_n (d : Nat) : (identityQ d).n = d := rfl

theorem identityQ_m (d : Nat) : (identityQ d).m = d := rfl

theorem identityQ_Wf (d : Nat) : (identityQ d).Wf := by
  simp [Matrix.Wf, identityQ]

theorem identityQ_get {d k j : Nat} (hk : k < d) (hj : j < d) :
    (identityQ d).get k j = if j = k then (1 : ℚ) else 0 := by
  have hlt : k * d + j < d * d := Matrix.idx_lt hk hj
  have hmod : (k * d + j) % d = j := by
    rw [Nat.add_comm, Nat.add_mul_mod_self_right]
    exact Nat.mod_eq_of_lt hj
  have hdiv : (k * d + j) / d = k := by
    have hd : 0 < d := Nat.lt_of_le_of_lt (Nat.zero_le _) hj
    rw [Nat.add_comm, Nat.add_mul_div_right _ _ hd, Nat.div_eq_of_lt hj,
      Nat.zero_add]
  show ((List.range (d * d)).map
      (fun t => if t % d = t / d then (1 : ℚ) else 0)).getD (k * d + j) default = _
  rw [List.getD_eq_getElem?_getD, List.getElem?_map, List.getElem?_range hlt]
  simp [hmod, hdiv]

theorem dotAcc_identity (a : Matrix ℚ) {i j : Nat} (hj : j < a.m) :
    dotAcc a (identityQ a.m) i j = a.get i j := by
  unfold dotAcc
  rw [foldl_add_eq_sum (fun k => a.get i k * (identityQ a.m).get k j)]
  have hcongr : ∀ k ∈ Finset.range a.m,
      a.get i k * (identityQ a.m).get k j = if j = k then a.get i k else 0 := by
    intro k hk
    rw [identityQ_get (Finset.mem_range.mp hk) hj]
    split <;> simp
  rw [Finset.sum_congr rfl hcongr, Finset.sum_ite_eq]
  simp [Finset.mem_range, hj]

theorem dotAccChk_eq {a b : Matrix ℚ} (ha : a.Wf) (hb : b.Wf) (hab : a.m = b.n)
    {i j : Nat} (hi : i < a.n) (hj : j < b.m) :
    dotAccChk a b i j = some (dotAcc a b i j) := by
  unfold dotAccChk dotAcc
  suffices h : ∀ (L : List Nat), (∀ k ∈ L, k < a.m) → ∀ s : ℚ,
      L.foldl (fun s? k => s?.bind (fun s => (a.getChk i k).bind
        (fun x => (b.getChk k j).bind (fun y => some (s + x * y))))) (some s) =
      some (L.foldl (fun s k => s + a.get i k * b.get k j) s) by
    exact h (List.range a.m) (fun k hk => List.mem_range.mp hk) 0
  intro L
  induction L with
  | nil => intro _ s; rfl
  | cons k L ih =>
    intro hmem s
    have hk : k < a.m := hmem k (List.mem_cons_self k L)
    have hkb : k < b.n := hab ▸ hk
    have step : (some s).bind (fun s => (a.getChk i k).bind
        (fun x => (b.getChk k j).bind (fun y => some (s + x * y)))) =
        some (s + a.get i k * b.get k j) := by
      rw [Option.some_bind, Matrix.getChk_eq_some ha hi hk, Option.some_bind,
        Matrix.getChk_eq_some hb hkb hj, Option.some_bind]
    rw [List.foldl_cons, List.foldl_cons, step]
    exact ih (fun x hx => hmem x (List.mem_cons_of_mem k hx)) _

theorem dotMatrixChk_eq {a b : Matrix ℚ} (ha : a.Wf) (hb : b.Wf)
    (hab : a.m = b.n) :
    dotMatrixChk a b = some (dotMatrix a b) := by
  unfold dotMatrixChk dotMatrix
  have inner : ∀ (L : List Nat) (i : Nat), i < a.n → (∀ j ∈ L, j < b.m) →
      ∀ c : Matrix ℚ, c.Wf → c.n = a.n → c.m = b.m →
      L.foldl (fun c? j => c?.bind (fun c => (dotAccChk a b i j).bind
        (fun v => c.setChk i j v))) (some c) =
        some (L.foldl (fun c j => c.set i j (dotAcc a b i j)) c) := by
    intro L
    induction L with
    | nil => intros; rfl
    | cons j L ih =>
      intro i hi hmem c hc hcn hcm
      have hj : j < b.m := hmem j (List.mem_cons_self j L)
      rw [List.foldl_cons, List.foldl_cons, Option.some_bind,
        dotAccChk_eq ha hb hab hi hj, Option.some_bind,
        Matrix.setChk_eq_some hc (hcn ▸ hi) (hcm ▸ hj)]
      exact ih i hi (fun x hx => hmem x (List.mem_cons_of_mem j hx))
        (c.set i j (dotAcc a b i j)) (Matrix.set_Wf hc i j _)
        (by rw [Matrix.set_n, hcn]) (by rw [Matrix.set_m, hcm])
  have outer : ∀ (L : List Nat), (∀ i ∈ L, i < a.n) →
      ∀ c : Matrix ℚ, c.Wf → c.n = a.n → c.m = b.m →
      L.foldl (fun c? i => (List.range b.m).foldl
        (fun c? j => c?.bind (fun c => (dotAccChk a b i j).bind
          (fun v => c.setChk i j v))) c?) (some c) =
        some (L.foldl (fun c i => (List.range b.m).foldl
          (fun c j => c.set i j (dotAcc a b i j)) c) c) := by
    intro L
    induction L with
    | nil => intros; rfl
    | cons i L ih =>
      intro hmem c hc hcn hcm
      have hi : i < a.n := hmem i (List.mem_cons_self i L)
      rw [List.foldl_cons, List.foldl_cons,
        inner (List.range b.m) i hi (fun j hj => List.mem_range.mp hj) c hc hcn hcm]
      have hrow : (List.range b.m).foldl
          (fun c j => c.set i j (dotAcc a b i j)) c =
          writeRow i (fun j => dotAcc a b i j) b.m c := rfl
      exact ih (fun x hx => hmem x (List.mem_cons_of_mem i hx)) _
        (by rw [hrow]; exact writeRow_Wf hc i _ b.m)
        (by rw [hrow, writeRow_n]; exact hcn)
        (by rw [hrow, writeRow_m]; exact hcm)
  exact outer (List.range a.n) (fun i hi => List.mem_range.mp hi)
    (Matrix.alloc ℚ a.n b.m) (Matrix.alloc_Wf ℚ a.n b.m) rfl rfl

theorem writeM_ne {mem : Mem} {q p : Nat} (h : q ≠ p) (v : ℚ) :
    writeM mem p v q = mem q := by
  simp [writeM, h]

theorem MatRef.addr_region (r : MatRef) {i j : Nat} (hi : i < r.n) (hj : j < r.m) :
    r.region (r.addr i j) :=
  ⟨Nat.le_add_right _ _, Nat.add_lt_add_left (Matrix.idx_lt hi hj) _⟩

theorem dotMem_outside (mem : Mem) (a b : MatRef) (cbase : Nat) (q : Nat)
    (hq : ¬ MatRef.region ⟨cbase, a.n, b.m⟩ q) :
    (dotMem mem a b cbase).1 q = mem q := by
  have inner : ∀ (V : Mem → Nat → ℚ) (i : Nat), i < a.n →
      ∀ (L : List Nat), (∀ j ∈ L, j < b.m) → ∀ mem : Mem,
      (L.foldl (fun mem j =>
        writeM mem (MatRef.addr ⟨cbase, a.n, b.m⟩ i j) (V mem j)) mem) q = mem q := by
    intro V i hi L
    induction L with
    | nil => intro _ mem; rfl
    | cons j L ih =>
      intro hmem mem
      rw [List.foldl_cons, ih (fun x hx => hmem x (List.mem_cons_of_mem j hx))]
      refine writeM_ne (fun he => hq ?_) _
      exact he ▸ MatRef.addr_region _ hi (hmem j (List.mem_cons_self j L))
  have outer : ∀ (L : List Nat), (∀ i ∈ L, i < a.n) → ∀ mem : Mem,
      (L.foldl (fun mem i => (List.range b.m).foldl
        (fun mem j => writeM mem (MatRef.addr ⟨cbase, a.n, b.m⟩ i j)
          ((List.range a.m).foldl
            (fun s k => s + readM mem a i k * readM mem b k j) 0)) mem) mem) q
        = mem q := by
    intro L
    induction L with
    | nil => intro _ mem; rfl
    | cons i L ih =>
      intro hmem mem
      rw [List.foldl_cons, ih (fun x hx => hmem x (List.mem_cons_of_mem i hx))]
      exact inner _ i (hmem i (List.mem_cons_self i L)) (List.range b.m)
        (fun j hj => List.mem_range.mp hj) mem
  exact outer (List.range a.n) (fun i hi => List.mem_range.mp hi) mem

/-- C1: for every A (n×p) and B (p×m) with A.cols = B.rows, the kernel
computes a fresh n×m matrix whose entry (i, j) is the k-ascending
single-accumulator fold, starting from 0, of A(i,k)*B(k,j) — the spec-side
`specMulEntry` — and the kernel returns the scalar C(0,0). -/
theorem c1_dot_kernel (a b : Matrix ℚ) (hab : a.m = b.n) (i j : Nat)
    (hi : i < a.n) (hj : j < b.m) :
    (dotMatrix a b).n = a.n ∧ (dotMatrix a b).m = b.m ∧ (dotMatrix a b).Wf ∧
    (dotMatrix a b).get i j = specMulEntry a b i j ∧
    dot a b = (dotMatrix a b).get 0 0 :=
  ⟨dotMatrix_n a b, dotMatrix_m a b, dotMatrix_Wf a b,
   by rw [dotMatrix_get hi hj]; rfl, rfl⟩

/-- Witness for C1 at A = [[1,2],[3,4]], B = [[5,6],[7,8]], entry (0, 1). -/
theorem c1_dot_kernel_witness :
    exA.m = exB.n ∧ (0 : Nat) < exA.n ∧ (1 : Nat) < exB.m ∧
    ((dotMatrix exA exB).n = exA.n ∧ (dotMatrix exA exB).m = exB.m ∧
     (dotMatrix exA exB).Wf ∧
     (dotMatrix exA exB).get 0 1 = specMulEntry exA exB 0 1 ∧
     dot exA exB = (dotMatrix exA exB).get 0 0) :=
  ⟨rfl, by decide, by decide,
   c1_dot_kernel exA exB rfl 0 1 (by decide) (by decide)⟩

/-- C2: on A = [[1,2],[3,4]] and B = [[5,6],[7,8]] the kernel returns 19,
and the internally computed full product is [[19,22],[43,50]] (every scalar
involved is a small integer, hence exact in single precision). -/
theorem c2_literal_product :
    dot exA exB = 19 ∧
    (dotMatrix exA exB).get 0 0 = 19 ∧ (dotMatrix exA exB).get 0 1 = 22 ∧
    (dotMatrix exA exB).get 1 0 = 43 ∧ (dotMatrix exA exB).get 1 1 = 50 := by
  have e : ∀ i j : Nat, i < 2 → j < 2 →
      (dotMatrix exA exB).get i j = dotAcc exA exB i j := by
    intro i j hi hj
    exact dotMatrix_get hi hj
  have h00 := e 0 0 (by decide) (by decide)
  have h01 := e 0 1 (by decide) (by decide)
  have h10 := e 1 0 (by decide) (by decide)
  have h11 := e 1 1 (by decide) (by decide)
  refine ⟨?_, ?_, ?_, ?_, ?_⟩
  · unfold dot
    rw [h00]
    norm_num [dotAcc, exA, exB, Matrix.get, Matrix.idx, List.range_succ, List.getD]
  · rw [h00]
    norm_num [dotAcc, exA, exB, Matrix.get, Matrix.idx, List.range_succ, List.getD]
  · rw [h01]
    norm_num [dotAcc, exA, exB, Matrix.get, Matrix.idx, List.range_succ, List.getD]
  · rw [h10]
    norm_num [dotAcc, exA, exB, Matrix.get, Matrix.idx, List.range_succ, List.getD]
  · rw [h11]
    norm_num [dotAcc, exA, exB, Matrix.get, Matrix.idx, List.range_succ, List.getD]

/-- C3 (counterexample): `rand()` may return `RAND_MAX` itself (ISO C:
`0 ≤ rand() ≤ RAND_MAX`), and then the stored value
`rand() / (float)RAND_MAX * 2 - 1` is exactly 1, which is not `< 1`; so not
every written value lies in the half-open interval [-1, 1). -/
theorem c3_counterexample :
    (fill_rand 32767 (fun _ => 32767) ⟨1, 1, [0]⟩).get 0 0 = 1 ∧
    ¬ ((fill_rand 32767 (fun _ => 32767) ⟨1, 1, [0]⟩).get 0 0 < 1) := by
  have hwf : (⟨1, 1, [0]⟩ : Matrix ℚ).Wf := rfl
  have h := fill_rand_get 32767 (fun _ => 32767) hwf
    (show (0 : Nat) < 1 by decide) (show (0 : Nat) < 1 by decide)
  constructor
  · rw [h]
    norm_num [randVal]
  · rw [h]
    norm_num [randVal]

/-- C3 (amended): the filler overwrites every element (i, j) with
`uniform_random() * 2 - 1`, where the element consumes generator output
number `i*cols + j` (row-major order); every written value lies in the
closed interval [-1, 1], the right end included exactly when the generator
returns `RAND_MAX`. -/
theorem c3_fill_range (rm : Nat) (g : Nat → Nat) (a : Matrix ℚ) (i j : Nat)
    (hg : ∀ t, g t ≤ rm) (hrm : 0 < rm) (ha : a.Wf)
    (hi : i < a.n) (hj : j < a.m) :
    (fill_rand rm g a).n = a.n ∧ (fill_rand rm g a).m = a.m ∧
    (fill_rand rm g a).get i j = (g (i * a.m + j) : ℚ) / (rm : ℚ) * 2 - 1 ∧
    -1 ≤ (fill_rand rm g a).get i j ∧ (fill_rand rm g a).get i j ≤ 1 := by
  have hget := fill_rand_get rm g ha hi hj
  have hb := randVal_bounds rm g (i * a.m + j) (hg _) hrm
  exact ⟨fill_rand_n rm g a, fill_rand_m rm g a, by rw [hget]; rfl,
    by rw [hget]; exact hb.1, by rw [hget]; exact hb.2⟩

/-- Witness for C3 (amended) on a 1×1 matrix with a generator that always
returns 0. -/
theorem c3_fill_range_witness :
    (∀ t : Nat, (fun _ : Nat => 0) t ≤ 32767) ∧ 0 < 32767 ∧
    (⟨1, 1, [5]⟩ : Matrix ℚ).Wf ∧ (0 : Nat) < 1 ∧
    ((fill_rand 32767 (fun _ => 0) ⟨1, 1, [5]⟩).n = 1 ∧
     (fill_rand 32767 (fun _ => 0) ⟨1, 1, [5]⟩).m = 1 ∧
     (fill_rand 32767 (fun _ => 0) ⟨1, 1, [5]⟩).get 0 0 =
       ((0 : Nat) : ℚ) / ((32767 : Nat) : ℚ) * 2 - 1 ∧
     -1 ≤ (fill_rand 32767 (fun _ => 0) ⟨1, 1, [5]⟩).get 0 0 ∧
     (fill_rand 32767 (fun _ => 0) ⟨1, 1, [5]⟩).get 0 0 ≤ 1) :=
  ⟨fun _ => Nat.zero_le _, by decide, rfl, by decide,
   c3_fill_range 32767 (fun _ => 0) ⟨1, 1, [5]⟩ 0 0
     (fun _ => Nat.zero_le _) (by decide) rfl (by decide) (by decide)⟩

/-- C4: the buffer is created with exactly rows*cols cells, no operation of
the program resizes it, and element (i, j) is read from and written to the
row-major linear offset `i*cols + j`. -/
theorem c4_buffer_layout :
    (∀ r c : Nat, (Matrix.alloc ℚ r c).Wf ∧ (Matrix.alloc ℚ r c).n = r ∧
      (Matrix.alloc ℚ r c).m = c) ∧
    (∀ (a : Matrix ℚ) (i j : Nat) (v : ℚ), (a.set i j v).n = a.n ∧
      (a.set i j v).m = a.m ∧ (a.set i j v).data.length = a.data.length) ∧
    (∀ (rm : Nat) (g : Nat → Nat) (a : Matrix ℚ),
      (fill_rand rm g a).n = a.n ∧ (fill_rand rm g a).m = a.m ∧
      (fill_rand rm g a).data.length = a.data.length) ∧
    (∀ a b : Matrix ℚ, (dotMatrix a b).Wf) ∧
    (∀ (a : Matrix ℚ) (i j : Nat), a.get i j = a.data.getD (i * a.m + j) default) ∧
    (∀ (a : Matrix ℚ) (i j : Nat) (v : ℚ),
      (a.set i j v).data = a.data.set (i * a.m + j) v) :=
  ⟨fun r c => ⟨Matrix.alloc_Wf ℚ r c, rfl, rfl⟩,
   fun a i j v => ⟨rfl, rfl, Matrix.set_length a i j v⟩,
   fun rm g a => ⟨fill_rand_n rm g a, fill_rand_m rm g a, fill_rand_length rm g a⟩,
   fun a b => dotMatrix_Wf a b,
   fun _ _ _ => rfl,
   fun _ _ _ _ => rfl⟩

/-- C5: for an in-range pair (i, j) and any value v, Set(i,j,v) followed by
Get(i,j) returns exactly v, and any other in-range element (i', j') is left
unchanged. -/
theorem c5_set_get_roundtrip (a : Matrix ℚ) (i j i' j' : Nat) (v : ℚ)
    (ha : a.Wf) (hi : i < a.n) (hj : j < a.m)
    (hi' : i' < a.n) (hj' : j' < a.m) (hne : (i', j') ≠ (i, j)) :
    (a.set i j v).get i j = v ∧ (a.set i j v).get i' j' = a.get i' j' :=
  ⟨Matrix.get_set_self ha hi hj v, Matrix.get_set_ne hj hj' hne v⟩

/-- Witness for C5 on A = [[1,2],[3,4]], setting (0,1) := 7 and checking
(1,0) is untouched. -/
theorem c5_set_get_roundtrip_witness :
    exA.Wf ∧ (0 : Nat) < exA.n ∧ (1 : Nat) < exA.m ∧
    (1 : Nat) < exA.n ∧ (0 : Nat) < exA.m ∧
    ((1 : Nat), (0 : Nat)) ≠ ((0 : Nat), (1 : Nat)) ∧
    ((exA.set 0 1 7).get 0 1 = 7 ∧ (exA.set 0 1 7).get 1 0 = exA.get 1 0) :=
  ⟨rfl, by decide, by decide, by decide, by decide, by decide,
   c5_set_get_roundtrip exA 0 1 1 0 7 rfl (by decide) (by decide)
     (by decide) (by decide) (by decide)⟩

/-- C6: multiplying any matrix A by the exact 0/1 identity of size A.cols
yields A unchanged, element for element (the scalar model is exact, matching
the spec's no-rounding argument for 0/1 operands). -/
theorem c6_identity (a : Matrix ℚ) (i j : Nat) (ha : a.Wf)
    (hi : i < a.n) (hj : j < a.m) :
    (dotMatrix a (identityQ a.m)).get i j = a.get i j ∧
    (dotMatrix a (identityQ a.m)).n = a.n ∧
    (dotMatrix a (identityQ a.m)).m = a.m := by
  refine ⟨?_, dotMatrix_n a (identityQ a.m), dotMatrix_m a (identityQ a.m)⟩
  rw [dotMatrix_get (b := identityQ a.m) hi hj]
  exact dotAcc_identity a hj

/-- Witness for C6 at A = [[1,2],[3,4]], entry (1, 0). -/
theorem c6_identity_witness :
    exA.Wf ∧ (1 : Nat) < exA.n ∧ (0 : Nat) < exA.m ∧
    ((dotMatrix exA (identityQ exA.m)).get 1 0 = exA.get 1 0 ∧
     (dotMatrix exA (identityQ exA.m)).n = exA.n ∧
     (dotMatrix exA (identityQ exA.m)).m = exA.m) :=
  ⟨rfl, by decide, by decide,
   c6_identity exA 1 0 rfl (by decide) (by decide)⟩

/-- C7: the driver uses the build-time constants n=100, p=200, m=50, T=100,
allocates and fills A as 100×200 and B as 200×50 (B's fill consuming the
generator where A's fill stopped), and accumulates the kernel's scalar
return over exactly T=100 invocations into `s` starting from 0. -/
theorem c7_driver_shape (rm : Nat) (g : Nat → Nat) :
    Driver.n = 100 ∧ Driver.p = 200 ∧ Driver.m = 50 ∧ Driver.T = 100 ∧
    (Driver.aFilled rm g).1.n = 100 ∧ (Driver.aFilled rm g).1.m = 200 ∧
    (Driver.aFilled rm g).1.Wf ∧
    (Driver.bFilled rm g).1.n = 200 ∧ (Driver.bFilled rm g).1.m = 50 ∧
    (Driver.bFilled rm g).1.Wf ∧
    (Driver.aFilled rm g).1 = fill_rand rm g (Matrix.alloc ℚ 100 200) ∧
    Driver.sAccum rm g = (List.range 100).foldl
      (fun s _ => s + dot (Driver.aFilled rm g).1 (Driver.bFilled rm g).1) 0 :=
  ⟨rfl, rfl, rfl, rfl,
   fill_randAux_fst_n rm g (Matrix.alloc ℚ Driver.n Driver.p) 0,
   fill_randAux_fst_m rm g (Matrix.alloc ℚ Driver.n Driver.p) 0,
   fill_randAux_fst_Wf rm g (Matrix.alloc_Wf ℚ Driver.n Driver.p) 0,
   fill_randAux_fst_n rm g (Matrix.alloc ℚ Driver.p Driver.m) (Driver.aFilled rm g).2,
   fill_randAux_fst_m rm g (Matrix.alloc ℚ Driver.p Driver.m) (Driver.aFilled rm g).2,
   fill_randAux_fst_Wf rm g (Matrix.alloc_Wf ℚ Driver.p Driver.m) (Driver.aFilled rm g).2,
   rfl, rfl⟩

/-- C8: on normal completion the driver emits exactly two lines, first the
accumulated scalar on the diagnostic channel, then the result line carrying
T = 100 and the average X = elapsed-microseconds / T. -/
theorem c8_output_lines (rm : Nat) (g : Nat → Nat) (elapsedSec : ℚ) :
    Driver.output rm g elapsedSec =
      [Driver.OutLine.err (Driver.sAccum rm g),
       Driver.OutLine.avg 100 (elapsedSec * 1000000 / 100)] ∧
    (Driver.output rm g elapsedSec).length = 2 := by
  constructor
  · unfold Driver.output
    norm_num [Driver.T]
  · rfl

/-- C9: in the flat-memory model, when the result region is freshly
allocated (disjoint from both operands), the kernel changes no cell of A and
no cell of B: every element read of A and B after the call gives the value
held before the call. -/
theorem c9_dot_frame (mem : Mem) (a b : MatRef) (cbase : Nat)
    (i j i' j' : Nat) (hab : a.m = b.n)
    (hca : a.base + a.n * a.m ≤ cbase) (hcb : b.base + b.n * b.m ≤ cbase)
    (hi : i < a.n) (hj : j < a.m) (hi' : i' < b.n) (hj' : j' < b.m) :
    readM (dotMem mem a b cbase).1 a i j = readM mem a i j ∧
    readM (dotMem mem a b cbase).1 b i' j' = readM mem b i' j' := by
  constructor
  · show (dotMem mem a b cbase).1 (a.addr i j) = mem (a.addr i j)
    refine dotMem_outside mem a b cbase _ (fun hreg => ?_)
    have h2 := (MatRef.addr_region a hi hj).2
    have h3 := hreg.1
    simp only [MatRef.addr] at h2 h3
    omega
  · show (dotMem mem a b cbase).1 (b.addr i' j') = mem (b.addr i' j')
    refine dotMem_outside mem a b cbase _ (fun hreg => ?_)
    have h2 := (MatRef.addr_region b hi' hj').2
    have h3 := hreg.1
    simp only [MatRef.addr] at h2 h3
    omega

/-- Witness for C9: A is 1×2 at base 0, B is 2×1 at base 2, C freshly at
base 4, over the all-zero memory. -/
theorem c9_dot_frame_witness :
    (⟨0, 1, 2⟩ : MatRef).m = (⟨2, 2, 1⟩ : MatRef).n ∧
    (⟨0, 1, 2⟩ : MatRef).base + 1 * 2 ≤ 4 ∧
    (⟨2, 2, 1⟩ : MatRef).base + 2 * 1 ≤ 4 ∧
    (0 : Nat) < 1 ∧ (1 : Nat) < 2 ∧ (1 : Nat) < 2 ∧ (0 : Nat) < 1 ∧
    (readM (dotMem (fun _ => 0) ⟨0, 1, 2⟩ ⟨2, 2, 1⟩ 4).1 ⟨0, 1, 2⟩ 0 1 =
       readM (fun _ => 0) ⟨0, 1, 2⟩ 0 1 ∧
     readM (dotMem (fun _ => 0) ⟨0, 1, 2⟩ ⟨2, 2, 1⟩ 4).1 ⟨2, 2, 1⟩ 1 0 =
       readM (fun _ => 0) ⟨2, 2, 1⟩ 1 0) :=
  ⟨rfl, by decide, by decide, by decide, by decide, by decide, by decide,
   c9_dot_frame (fun _ => 0) ⟨0, 1, 2⟩ ⟨2, 2, 1⟩ 4 0 1 1 0 rfl
     (by decide) (by decide) (by decide) (by decide) (by decide) (by decide)⟩

/-- C10: with compatible shapes and nonempty output, every element access of
the kernel is in bounds: the fully checked kernel (reads of A and B, stores
into C, final read of C(0,0), each through the bounds-reporting accessors)
never takes the out-of-bounds branch and agrees with the unchecked kernel. -/
theorem c10_accesses_in_bounds (a b : Matrix ℚ) (ha : a.Wf) (hb : b.Wf)
    (hab : a.m = b.n) (hn : 0 < a.n) (hm : 0 < b.m) :
    dotChk a b = some (dot a b) := by
  unfold dotChk dot
  rw [dotMatrixChk_eq ha hb hab, Option.some_bind]
  exact Matrix.getChk_eq_some (dotMatrix_Wf a b)
    (by rw [dotMatrix_n]; exact hn) (by rw [dotMatrix_m]; exact hm)

/-- Witness for C10 at A = [[1,2],[3,4]], B = [[5,6],[7,8]]. -/
theorem c10_accesses_in_bounds_witness :
    exA.Wf ∧ exB.Wf ∧ exA.m = exB.n ∧ 0 < exA.n ∧ 0 < exB.m ∧
    dotChk exA exB = some (dot exA exB) :=
  ⟨rfl, rfl, rfl, by decide, by decide,
   c10_accesses_in_bounds exA exB rfl rfl rfl
     (by decide) (by decide)⟩

end DotBench
